import Mathlib

/-!
Verification of the G-Counter CRDT in `src/CRDT.py`.

A Python `dict` mapping replica ids to integer counts is embedded as an
association list in insertion order (`PyDict`).  Python dict equality is
extensional (`dictEq`).  The class `GCounter` is embedded as a structure;
the field `isDefaultDict` records whether `self.state` is still the
`collections.defaultdict(int)` created in `__init__`: `merge` builds and
returns a plain `dict`, so after `apply_update` (or construction with a
non-empty `initial_state`) the state is a plain dict and subscripting a
missing key raises `KeyError`.
-/

namespace CRDT

/-- A Python dict from replica ids (strings) to integer counts,
as an association list in insertion order. -/
abbrev PyDict := List (String × Int)

/-- Lookup `state[k]`: the first entry with the given key, if any. -/
def dget (m : PyDict) (k : String) : Option Int :=
  match m with
  | [] => none
  | (k', v) :: rest => if k' = k then some v else dget rest k

/-- Default lookup `state.get(k, 0)`: lookup with default 0 for an absent key. -/
def dgetD (m : PyDict) (k : String) : Int :=
  (dget m k).getD 0

/-- The keys `state.keys()` in insertion order. -/
def pykeys (m : PyDict) : List String :=
  m.map Prod.fst

/-- Assignment `state[k] = v`: replace the binding of `k` (keeping its position),
or append a new binding at the end, as a Python dict does. -/
def setEntry (m : PyDict) (k : String) (v : Int) : PyDict :=
  match m with
  | [] => [(k, v)]
  | (k', v') :: rest => if k' = k then (k, v) :: rest else (k', v') :: setEntry rest k v

/-- Python `==` on dicts: same key set and same value at every key. -/
def dictEq (a b : PyDict) : Prop :=
  ∀ k, dget a k = dget b k

/-- A well-formed dict: no duplicate keys (true of every real Python dict). -/
def WF (m : PyDict) : Prop :=
  (pykeys m).Nodup

instance (m : PyDict) : Decidable (WF m) :=
  inferInstanceAs (Decidable ((pykeys m).Nodup))

/-- Embedding of `GCounter.merge(state1, state2)`: the union of the key sets, and for each
key the max of the two counts, absence counting as 0 (`dict.get(k, 0)`). -/
def merge (state1 state2 : PyDict) : PyDict :=
  let all_ids := (pykeys state1 ++ pykeys state2).dedup
  all_ids.map (fun replica_id => (replica_id, max (dgetD state1 replica_id) (dgetD state2 replica_id)))

/-- The exceptions the source can raise: `ValueError` from `increment(amount)`
with `amount < 0` (the spec calls it `InvalidArgument`), and `KeyError` from
`self.state[self.replica_id] += amount` on a plain dict missing the key. -/
inductive PyErr where
  | valueError
  | keyError
deriving DecidableEq

/-- The `GCounter` object: its replica id, its state dict, and whether the
state is still the `collections.defaultdict(int)` from `__init__`. -/
structure GCounter where
  replica_id : String
  state : PyDict
  isDefaultDict : Bool
deriving DecidableEq

/-- Embedding of `GCounter.__init__(replica_id, initial_state)`: start from an empty
defaultdict; if `initial_state` is truthy (not `None`, not empty), replace the
state with `merge(state, initial_state)` — a plain dict. -/
def GCounter.init (replica_id : String) (initial_state : Option PyDict) : GCounter :=
  match initial_state with
  | none => ⟨replica_id, [], true⟩
  | some ini =>
    if ini.isEmpty then ⟨replica_id, [], true⟩
    else ⟨replica_id, merge [] ini, false⟩

/-- Embedding of `GCounter.increment(amount)`: raise `ValueError` if `amount < 0`;
otherwise `self.state[self.replica_id] += amount` (a defaultdict materializes
an absent key at 0; a plain dict raises `KeyError`), and return the operation
dict `{self.replica_id: self.state[self.replica_id]}` with the new total. -/
def GCounter.increment (c : GCounter) (amount : Int) : Except PyErr (GCounter × PyDict) :=
  if amount < 0 then
    .error .valueError
  else
    match dget c.state c.replica_id with
    | some v =>
      .ok (⟨c.replica_id, setEntry c.state c.replica_id (v + amount), c.isDefaultDict⟩,
           [(c.replica_id, v + amount)])
    | none =>
      if c.isDefaultDict then
        .ok (⟨c.replica_id, setEntry c.state c.replica_id amount, c.isDefaultDict⟩,
             [(c.replica_id, amount)])
      else
        .error .keyError

/-- Embedding of `GCounter.apply_update(update_state)`:
`self.state = self.merge(self.state, update_state)` (a plain dict). -/
def GCounter.apply_update (c : GCounter) (update_state : PyDict) : GCounter :=
  ⟨c.replica_id, merge c.state update_state, false⟩

/-- Embedding of `GCounter.value()`: `sum(self.state.values())`. -/
def GCounter.value (c : GCounter) : Int :=
  (c.state.map Prod.snd).sum

/-- One call in the lifetime of a replica: a local `increment` or an
`apply_update` with an arbitrary dict. -/
inductive Cmd where
  | inc (amount : Int)
  | applyUp (update_state : PyDict)

/-- Perform one call; a raised exception leaves the object unchanged. -/
def GCounter.step (c : GCounter) : Cmd → GCounter
  | .inc amount =>
    match c.increment amount with
    | .ok p => p.1
    | .error _ => c
  | .applyUp u => c.apply_update u

/-- Perform a finite sequence of calls. -/
def GCounter.run (c : GCounter) : List Cmd → GCounter
  | [] => c
  | cmd :: rest => (c.step cmd).run rest

/-! ### Basic lemmas about `dget`, `dgetD`, `pykeys` -/

theorem pykeys_cons (k' : String) (v : Int) (rest : PyDict) :
    pykeys ((k', v) :: rest) = k' :: pykeys rest := rfl

theorem dget_eq_none_iff {m : PyDict} {k : String} :
    dget m k = none ↔ k ∉ pykeys m := by
  induction m with
  | nil => simp [dget, pykeys]
  | cons p rest ih =>
    obtain ⟨k', v⟩ := p
    rw [pykeys_cons, List.mem_cons]
    by_cases h : k' = k
    · subst h
      simp [dget]
    · rw [show dget ((k', v) :: rest) k = dget rest k from by simp [dget, h], ih]
      constructor
      · intro hn hor
        rcases hor with rfl | hmem
        · exact h rfl
        · exact hn hmem
      · intro hn hmem
        exact hn (Or.inr hmem)

theorem dget_eq_some_of_mem {m : PyDict} {k : String} (h : k ∈ pykeys m) :
    dget m k = some (dgetD m k) := by
  rcases ho : dget m k with _ | v
  · exact absurd (dget_eq_none_iff.mp ho) (by simp [h])
  · simp [dgetD, ho]

theorem dgetD_eq_zero_of_not_mem {m : PyDict} {k : String} (h : k ∉ pykeys m) :
    dgetD m k = 0 := by
  have := dget_eq_none_iff.mpr h
  simp [dgetD, this]

theorem mem_of_dget_eq_some {m : PyDict} {k : String} {v : Int}
    (h : dget m k = some v) : (k, v) ∈ m := by
  induction m with
  | nil => simp [dget] at h
  | cons p rest ih =>
    obtain ⟨k', v'⟩ := p
    by_cases hk : k' = k
    · subst hk
      simp [dget] at h
      simp [h]
    · simp [dget, hk] at h
      simp [ih h]

/-! ### Lemmas about `merge` -/

theorem dget_map_keyed (l : List String) (f : String → Int) (k : String) :
    dget (l.map fun k' => (k', f k')) k = if k ∈ l then some (f k) else none := by
  induction l with
  | nil => simp [dget]
  | cons a rest ih =>
    by_cases h : a = k
    · subst h
      simp [dget]
    · have hne : ¬ k = a := fun hk => h hk.symm
      simp [dget, h, hne, ih]

theorem pykeys_merge (a b : PyDict) :
    pykeys (merge a b) = (pykeys a ++ pykeys b).dedup := by
  show List.map Prod.fst (List.map _ _) = _
  rw [List.map_map]
  exact List.map_id _

theorem merge_WF (a b : PyDict) : WF (merge a b) := by
  rw [WF, pykeys_merge]
  exact List.nodup_dedup _

theorem dget_merge (a b : PyDict) (k : String) :
    dget (merge a b) k =
      if k ∈ pykeys a ∨ k ∈ pykeys b then some (max (dgetD a k) (dgetD b k))
      else none := by
  rw [merge]
  rw [dget_map_keyed]
  congr 1
  simp [List.mem_dedup]

theorem dgetD_merge (a b : PyDict) (k : String) :
    dgetD (merge a b) k = max (dgetD a k) (dgetD b k) := by
  rw [dgetD, dget_merge]
  by_cases h : k ∈ pykeys a ∨ k ∈ pykeys b
  · simp [h]
  · push_neg at h
    simp [h.1, h.2, dgetD_eq_zero_of_not_mem h.1, dgetD_eq_zero_of_not_mem h.2]

theorem mem_pykeys_merge {a b : PyDict} {k : String} :
    k ∈ pykeys (merge a b) ↔ k ∈ pykeys a ∨ k ∈ pykeys b := by
  rw [pykeys_merge, List.mem_dedup, List.mem_append]

/-! ### Lemmas about `setEntry` and sums -/

theorem pykeys_setEntry (m : PyDict) (k : String) (v : Int) :
    pykeys (setEntry m k v) = if k ∈ pykeys m then pykeys m else pykeys m ++ [k] := by
  induction m with
  | nil => simp [setEntry, pykeys]
  | cons p rest ih =>
    obtain ⟨k', v'⟩ := p
    by_cases h : k' = k
    · subst h
      simp [setEntry, pykeys_cons, List.mem_cons]
    · have hne : ¬ k = k' := fun hk => h hk.symm
      simp only [setEntry, if_neg h, pykeys_cons, List.mem_cons, hne, false_or, ih]
      by_cases hm : k ∈ pykeys rest <;> simp [hm]

theorem WF_setEntry {m : PyDict} (k : String) (v : Int) (h : WF m) :
    WF (setEntry m k v) := by
  rw [WF, pykeys_setEntry]
  by_cases hm : k ∈ pykeys m
  · simpa [hm] using h
  · simp only [hm, if_false]
    exact List.Nodup.append h (List.nodup_singleton k) (by simpa using hm)

theorem sum_setEntry (m : PyDict) (k : String) (v : Int) :
    ((setEntry m k v).map Prod.snd).sum = (m.map Prod.snd).sum + (v - dgetD m k) := by
  induction m with
  | nil => simp [setEntry, dgetD, dget]
  | cons p rest ih =>
    obtain ⟨k', v'⟩ := p
    by_cases h : k' = k
    · subst h
      simp only [setEntry, if_pos rfl, List.map_cons, List.sum_cons, dgetD, dget, if_pos rfl]
      simp
      ring
    · simp only [setEntry, if_neg h, List.map_cons, List.sum_cons, ih]
      have : dgetD ((k', v') :: rest) k = dgetD rest k := by
        simp [dgetD, dget, h]
      rw [this]
      ring

theorem sum_eq_finset_sum {m : PyDict} (h : WF m) :
    (m.map Prod.snd).sum = ∑ k in (pykeys m).toFinset, dgetD m k := by
  induction m with
  | nil => simp [pykeys]
  | cons p rest ih =>
    obtain ⟨k, v⟩ := p
    rw [WF, pykeys_cons, List.nodup_cons] at h
    rw [List.map_cons, List.sum_cons, pykeys_cons, List.toFinset_cons,
      Finset.sum_insert (by simpa using h.1), ih h.2]
    congr 1
    · simp [dgetD, dget]
    · apply Finset.sum_congr rfl
      intro k' hk'
      have hne : ¬ k = k' := by
        intro he
        subst he
        exact h.1 (List.mem_toFinset.mp hk')
      simp [dgetD, dget, hne]

theorem value_le_sum_merge {s : PyDict} (u : PyDict) (h : WF s) :
    (s.map Prod.snd).sum ≤ ((merge s u).map Prod.snd).sum := by
  rw [sum_eq_finset_sum h, sum_eq_finset_sum (merge_WF s u)]
  have hsub : (pykeys s).toFinset ⊆ (pykeys (merge s u)).toFinset := by
    intro k hk
    rw [List.mem_toFinset] at hk ⊢
    exact mem_pykeys_merge.mpr (Or.inl hk)
  calc ∑ k in (pykeys s).toFinset, dgetD s k
      ≤ ∑ k in (pykeys s).toFinset, dgetD (merge s u) k := by
        apply Finset.sum_le_sum
        intro k _
        rw [dgetD_merge]
        exact le_max_left _ _
    _ ≤ ∑ k in (pykeys (merge s u)).toFinset, dgetD (merge s u) k := by
        apply Finset.sum_le_sum_of_subset_of_nonneg hsub
        intro k _ hks
        rw [dgetD_merge, dgetD_eq_zero_of_not_mem (by simpa using hks)]
        exact le_max_left 0 _

/-! ### Characterizing `increment` -/

theorem increment_of_neg {c : GCounter} {amount : Int} (h : amount < 0) :
    c.increment amount = .error .valueError := by
  simp [GCounter.increment, h]

theorem increment_of_mem {c : GCounter} {amount v : Int}
    (hneg : ¬ amount < 0) (hv : dget c.state c.replica_id = some v) :
    c.increment amount =
      .ok (⟨c.replica_id, setEntry c.state c.replica_id (v + amount), c.isDefaultDict⟩,
           [(c.replica_id, v + amount)]) := by
  simp [GCounter.increment, hneg, hv]

theorem increment_of_absent_default {c : GCounter} {amount : Int}
    (hneg : ¬ amount < 0) (hv : dget c.state c.replica_id = none)
    (hd : c.isDefaultDict = true) :
    c.increment amount =
      .ok (⟨c.replica_id, setEntry c.state c.replica_id amount, c.isDefaultDict⟩,
           [(c.replica_id, amount)]) := by
  simp [GCounter.increment, hneg, hv, hd]

theorem increment_of_absent_plain {c : GCounter} {amount : Int}
    (hneg : ¬ amount < 0) (hv : dget c.state c.replica_id = none)
    (hd : c.isDefaultDict = false) :
    c.increment amount = .error .keyError := by
  simp [GCounter.increment, hneg, hv, hd]

/-! ### Monotonicity of `value` along any trace of calls -/

theorem step_value_le (c : GCounter) (cmd : Cmd) (h : WF c.state) :
    c.value ≤ (c.step cmd).value ∧ WF (c.step cmd).state := by
  cases cmd with
  | applyUp u =>
    exact ⟨value_le_sum_merge u h, merge_WF _ _⟩
  | inc amount =>
    by_cases hneg : amount < 0
    · simp [GCounter.step, increment_of_neg hneg, h]
    · have h0 : (0 : Int) ≤ amount := not_lt.mp hneg
      rcases hown : dget c.state c.replica_id with _ | v
      · by_cases hd : c.isDefaultDict = true
        · rw [GCounter.step, increment_of_absent_default hneg hown hd]
          refine ⟨?_, WF_setEntry _ _ h⟩
          show c.value ≤ (setEntry c.state c.replica_id amount |>.map Prod.snd).sum
          rw [sum_setEntry]
          have hz : dgetD c.state c.replica_id = 0 := by simp [dgetD, hown]
          rw [hz, GCounter.value]
          linarith
        · rw [GCounter.step,
            increment_of_absent_plain hneg hown (Bool.not_eq_true _ |>.mp hd)]
          exact ⟨le_refl _, h⟩
      · rw [GCounter.step, increment_of_mem hneg hown]
        refine ⟨?_, WF_setEntry _ _ h⟩
        show c.value ≤ (setEntry c.state c.replica_id (v + amount) |>.map Prod.snd).sum
        rw [sum_setEntry]
        have hv : dgetD c.state c.replica_id = v := by simp [dgetD, hown]
        rw [hv, GCounter.value]
        linarith

theorem run_value_le (c : GCounter) (cmds : List Cmd) (h : WF c.state) :
    c.value ≤ (c.run cmds).value ∧ WF (c.run cmds).state := by
  induction cmds generalizing c with
  | nil => exact ⟨le_refl _, h⟩
  | cons cmd rest ih =>
    have hstep := step_value_le c cmd h
    have hrest := ih (c.step cmd) hstep.2
    exact ⟨le_trans hstep.1 hrest.1, hrest.2⟩

theorem run_append (c : GCounter) (l1 l2 : List Cmd) :
    c.run (l1 ++ l2) = (c.run l1).run l2 := by
  induction l1 generalizing c with
  | nil => rfl
  | cons cmd rest ih => simp [GCounter.run, ih]

theorem init_WF (replica_id : String) (ini : Option PyDict) :
    WF (GCounter.init replica_id ini).state := by
  rcases ini with _ | l
  · simp [GCounter.init, WF, pykeys]
  · rw [GCounter.init]
    by_cases h : l.isEmpty
    · simp [h, WF, pykeys]
    · simp only [h, if_false]
      exact merge_WF _ _

/-! ### The claims -/

/-- Claim C1 (code bug): the claim says `increment(amount)` with `amount >= 0`
creates the replica's own entry at `amount` when it is absent, in every
reachable state including states reached via `apply_update`.  The code
violates this: `merge` returns a plain dict, so after
`GCounter("A").apply_update({"B": 1})` the state is `{"B": 1}` without the
defaultdict behaviour, and `increment(1)` raises `KeyError` on
`self.state["A"] += 1` instead of creating the entry. -/
theorem C1_increment_keyError :
    ((GCounter.init "A" none).apply_update [("B", 1)]).increment 1 =
      .error .keyError := by
  rfl

/-- Claim C2: `merge(a, b)` has as key set the union of the key sets of `a`
and `b`, and its count at each key `k` is `max` of the two counts, a key
absent from a map counting as 0. -/
theorem C2_merge_spec (a b : PyDict) :
    (pykeys (merge a b)).toFinset = (pykeys a).toFinset ∪ (pykeys b).toFinset ∧
    ∀ k, dgetD (merge a b) k = max (dgetD a k) (dgetD b k) := by
  constructor
  · ext k
    simp only [List.mem_toFinset, Finset.mem_union]
    exact mem_pykeys_merge
  · exact dgetD_merge a b

/-- Claim C3: the equality `merge(a, b) == merge(b, a)` (Python dict equality). -/
theorem C3_merge_comm (a b : PyDict) : dictEq (merge a b) (merge b a) := by
  intro k
  rw [dget_merge, dget_merge]
  by_cases h : k ∈ pykeys a ∨ k ∈ pykeys b
  · rw [if_pos h, if_pos h.symm, max_comm]
  · rw [if_neg h, if_neg (fun h' => h h'.symm)]

/-- Claim C4: the equality `merge(merge(a, b), c) == merge(a, merge(b, c))`. -/
theorem C4_merge_assoc (a b c : PyDict) :
    dictEq (merge (merge a b) c) (merge a (merge b c)) := by
  intro k
  rw [dget_merge, dget_merge]
  have hab : (k ∈ pykeys (merge a b) ∨ k ∈ pykeys c) ↔
      k ∈ pykeys a ∨ k ∈ pykeys b ∨ k ∈ pykeys c := by
    rw [mem_pykeys_merge, or_assoc]
  have hbc : (k ∈ pykeys a ∨ k ∈ pykeys (merge b c)) ↔
      k ∈ pykeys a ∨ k ∈ pykeys b ∨ k ∈ pykeys c := by
    rw [mem_pykeys_merge]
  by_cases h : k ∈ pykeys a ∨ k ∈ pykeys b ∨ k ∈ pykeys c
  · rw [if_pos (hab.mpr h), if_pos (hbc.mpr h), dgetD_merge, dgetD_merge, max_assoc]
  · rw [if_neg (fun h' => h (hab.mp h')), if_neg (fun h' => h (hbc.mp h'))]

/-- Claim C5: the equality `merge(s, s) == s`, and applying the same update twice via
`apply_update` yields the same state as applying it once. -/
theorem C5_idempotent :
    (∀ s : PyDict, dictEq (merge s s) s) ∧
    ∀ (c : GCounter) (u : PyDict),
      dictEq ((c.apply_update u).apply_update u).state (c.apply_update u).state := by
  constructor
  · intro s k
    rw [dget_merge]
    by_cases h : k ∈ pykeys s
    · rw [if_pos (Or.inl h), max_self, (dget_eq_some_of_mem h)]
    · rw [if_neg (by simp [h]), (dget_eq_none_iff.mpr h)]
  · intro c u k
    show dget (merge (merge c.state u) u) k = dget (merge c.state u) k
    rw [dget_merge, dget_merge]
    by_cases h : k ∈ pykeys c.state ∨ k ∈ pykeys u
    · rw [if_pos (Or.inl (mem_pykeys_merge.mpr h)), if_pos h, dgetD_merge,
        max_assoc, max_self]
    · have h1 : ¬ (k ∈ pykeys (merge c.state u) ∨ k ∈ pykeys u) := by
        rw [mem_pykeys_merge]
        tauto
      rw [if_neg h1, if_neg h]

/-- Claim C6: calling `increment(amount)` with `amount < 0` raises the invalid-argument
error (`ValueError` in the source) and leaves the object, hence its state map
and `value()`, unchanged. -/
theorem C6_increment_negative (c : GCounter) (amount : Int) (h : amount < 0) :
    c.increment amount = .error .valueError ∧
      c.step (.inc amount) = c ∧ (c.step (.inc amount)).value = c.value := by
  refine ⟨increment_of_neg h, ?_, ?_⟩ <;>
    rw [GCounter.step, increment_of_neg h]

theorem C6_increment_negative_witness :
    (-1 : Int) < 0 ∧
      ((GCounter.init "A" none).increment (-1) = .error .valueError ∧
        (GCounter.init "A" none).step (.inc (-1)) = GCounter.init "A" none ∧
        ((GCounter.init "A" none).step (.inc (-1))).value =
          (GCounter.init "A" none).value) :=
  ⟨by decide, C6_increment_negative (GCounter.init "A" none) (-1) (by decide)⟩

/-- Claim C7: over any lifetime of a replica — constructed with any id and
initial state, then subjected to any finite sequence of `increment` and
`apply_update` calls with arbitrary arguments — `value()` never decreases:
the value after a prefix of the calls is at most the value after any
extension of that prefix. -/
theorem C7_value_monotone (replica_id : String) (ini : Option PyDict)
    (cmds1 cmds2 : List Cmd) :
    ((GCounter.init replica_id ini).run cmds1).value ≤
      ((GCounter.init replica_id ini).run (cmds1 ++ cmds2)).value := by
  rw [run_append]
  exact (run_value_le _ cmds2 (run_value_le _ cmds1 (init_WF replica_id ini)).2).1

/-- Claim C8: `merge(a, b)` dominates both `a` and `b` in the pointwise order
with absent keys read as 0. -/
theorem C8_merge_dominates (a b : PyDict) (k : String) :
    dgetD a k ≤ dgetD (merge a b) k ∧ dgetD b k ≤ dgetD (merge a b) k := by
  rw [dgetD_merge]
  exact ⟨le_max_left _ _, le_max_right _ _⟩

/-- Claim C9: the method `value()` returns the sum of the counts over all replica
identifiers present in the local state map (it is a pure function of the
state in this embedding, so it changes nothing). -/
theorem C9_value_spec (c : GCounter) (h : WF c.state) :
    c.value = ∑ k in (pykeys c.state).toFinset, dgetD c.state k :=
  sum_eq_finset_sum h

theorem C9_value_spec_witness :
    WF (GCounter.init "A" (some [("A", 2), ("B", 1)])).state ∧
      (GCounter.init "A" (some [("A", 2), ("B", 1)])).value =
        ∑ k in (pykeys (GCounter.init "A" (some [("A", 2), ("B", 1)])).state).toFinset,
          dgetD (GCounter.init "A" (some [("A", 2), ("B", 1)])).state k :=
  ⟨by decide, C9_value_spec _ (by decide)⟩

/-- Claim C10: if every count stored in the local state is non-negative, then
after `apply_update` with an arbitrary update map — negative counts included —
every count in the resulting state is still non-negative. -/
theorem C10_nonneg_preserved (c : GCounter) (u : PyDict)
    (h : ∀ p ∈ c.state, 0 ≤ p.2) :
    ∀ p ∈ (c.apply_update u).state, 0 ≤ p.2 := by
  intro p hp
  obtain ⟨k, hk, rfl⟩ := List.mem_map.mp hp
  show (0 : Int) ≤ max (dgetD c.state k) (dgetD u k)
  have h0 : (0 : Int) ≤ dgetD c.state k := by
    rcases hm : dget c.state k with _ | v
    · simp [dgetD, hm]
    · have : dgetD c.state k = v := by simp [dgetD, hm]
      rw [this]
      exact h (k, v) (mem_of_dget_eq_some hm)
  exact le_trans h0 (le_max_left _ _)

theorem C10_nonneg_preserved_witness :
    (∀ p ∈ (GCounter.init "A" none).state, 0 ≤ p.2) ∧
      ∀ p ∈ ((GCounter.init "A" none).apply_update [("B", -5)]).state, 0 ≤ p.2 :=
  ⟨by decide, C10_nonneg_preserved (GCounter.init "A" none) [("B", -5)] (by decide)⟩

end CRDT
